import Mathlib

/-!
Shallow embedding of the Edit Compositing Engine of the pdf-edit
repository: ReflowEngine (src ReflowEngine.ts), TextEraser and
BackgroundDetector (src/modules/erasure/BackgroundDetector.ts), and
EditManager (src EditManager.ts), together with theorems settling the
frozen claims about the natural-language specification.

JavaScript numbers are modelled as `Rat` where fractional values matter
(text widths, colors, alpha) and as `Int` for pixel geometry (all uses in
the claims are integral).  Strings manipulated character-by-character
(`slice(0,-1)`, `trim`) are modelled as `List Char`.  JS `Map` objects are
modelled as association lists with insertion-order `set` semantics.
The text-metrics primitive — the canvas `measureText` to which both
`@utils/helpers` `measureText` (lazyLoader.ts:318-334) and TextEraser's
own `measureText` delegate — is a platform capability and is a
parameter `w` of every definition that measures text.
-/

namespace PdfEdit

/-! ## Text styles (src `@core/types` TextStyle) -/

/-- TextStyle from `@core/types` (part_010).  `fontWeight` is the loosely
typed string-or-number field, modelled as a `String` (the source converts
it with `String(style.fontWeight)` before measuring). -/
structure TextStyle where
  fontFamily : String
  fontSize : ℚ
  fontWeight : String
  fontStyle : String
  textDecoration : String
  color : String
  backgroundColor : String
  lineHeight : ℚ
deriving DecidableEq, Repr

/-- A measure function: the platform text-metrics capability
`measure(text, fontFamily, fontSize, fontWeight) -> {width}` (the
canvas `measureText`), folded to a width for a given style.  Both
TextEraser and ReflowEngine call it through their own wrappers; claims
C6/C7 quantify over one shared `w`. -/
abbrev Measure := TextStyle → List Char → ℚ

/-- `EDIT_CONFIG.OVERFLOW_ELLIPSIS` = `'...'` (constants, part_011). -/
def OVERFLOW_ELLIPSIS : List Char := ['.', '.', '.']

/-- `EDIT_CONFIG.MAX_HISTORY_SIZE` = 50 (constants, part_011). -/
def MAX_HISTORY_SIZE : ℕ := 50

/-- `EDIT_CONFIG.TEXT_BLOCK_PADDING` = 2 (constants, part_011). -/
def TEXT_BLOCK_PADDING : ℤ := 2

/-- `EDIT_CONFIG.MASK_BLUR_RADIUS` = 1 (constants, part_011). -/
def MASK_BLUR_RADIUS : ℤ := 1

/-! ## The shared truncation loop

Both `TextEraser.truncateText` and `ReflowEngine.truncateToFit` repeatedly
remove the last character (`slice(0,-1)`) until the remaining text's
measured width is ≤ the target width or the text is empty.  We embed each
loop separately, following its own source. -/

/-- The `while` loop of `TextEraser.truncateText`
(BackgroundDetector.ts:488-494): while the text is nonempty, return
`truncated + ellipsis` as soon as it fits, else drop the last character
(`slice(0,-1)`); if the loop exhausts the text, return the bare ellipsis.
The loop runs at most `text.length` times, so it is embedded with a fuel
counter kept equal to the remaining length (the fuel-exhausted branch is
unreachable from `eraseTruncLoop`). -/
def eraseTruncGo (width : List Char → ℚ) (target : ℚ) :
    ℕ → List Char → List Char
  | _, [] => OVERFLOW_ELLIPSIS
  | 0, _ :: _ => OVERFLOW_ELLIPSIS
  | fuel + 1, c :: cs =>
    if width (c :: cs) ≤ target then (c :: cs) ++ OVERFLOW_ELLIPSIS
    else eraseTruncGo width target fuel (c :: cs).dropLast

/-- The `while` loop of `TextEraser.truncateText`, started on the full
text. -/
def eraseTruncLoop (width : List Char → ℚ) (target : ℚ) (t : List Char) :
    List Char :=
  eraseTruncGo width target t.length t

/-- `TextEraser.truncateText(text, style, maxWidth)`
(BackgroundDetector.ts:480-497): reserve the ellipsis width; if even the
ellipsis does not fit, return it alone; otherwise run the dropping loop. -/
def TextEraser.truncateText (w : Measure) (text : List Char) (style : TextStyle)
    (maxWidth : ℚ) : List Char :=
  let ellipsisWidth := w style OVERFLOW_ELLIPSIS
  let targetWidth := maxWidth - ellipsisWidth
  if targetWidth ≤ 0 then OVERFLOW_ELLIPSIS
  else eraseTruncLoop (w style) targetWidth text

/-- The `while` loop of `ReflowEngine.truncateToFit` (part_014:88-92):
drop the last character while the text is nonempty and too wide; return
the remaining text (the caller then trims it and appends the ellipsis).
Fuel-embedded like `eraseTruncGo`. -/
def reflowTruncGo (width : List Char → ℚ) (target : ℚ) :
    ℕ → List Char → List Char
  | _, [] => []
  | 0, t => t
  | fuel + 1, c :: cs =>
    if target < width (c :: cs) then
      reflowTruncGo width target fuel (c :: cs).dropLast
    else c :: cs

/-- The `while` loop of `ReflowEngine.truncateToFit`, started on the
full text. -/
def reflowTruncLoop (width : List Char → ℚ) (target : ℚ) (t : List Char) :
    List Char :=
  reflowTruncGo width target t.length t

/-- The JS WhiteSpace ∪ LineTerminator set stripped by
`String.prototype.trim` (ECMA-262 TrimString): TAB, LF, VT, FF, CR,
SP, NBSP, the Unicode Zs spaces, LS, PS and ZWNBSP/BOM. -/
def jsWhitespace (c : Char) : Bool :=
  c.toNat ∈ [0x9, 0xA, 0xB, 0xC, 0xD, 0x20, 0xA0, 0x1680,
    0x2000, 0x2001, 0x2002, 0x2003, 0x2004, 0x2005, 0x2006, 0x2007,
    0x2008, 0x2009, 0x200A, 0x2028, 0x2029, 0x202F, 0x205F, 0x3000,
    0xFEFF]

/-- JS `String.prototype.trim`: strip JS whitespace from both ends. -/
def jsTrim (l : List Char) : List Char :=
  ((l.dropWhile jsWhitespace).reverse.dropWhile jsWhitespace).reverse

/-- `ReflowEngine.truncateToFit(text, maxWidth, style)` (part_014:79-97):
reserve the ellipsis width; if even the ellipsis does not fit, return it
alone; otherwise run the dropping loop, then return
`truncated.trim() + ellipsis`. -/
def ReflowEngine.truncateToFit (w : Measure) (text : List Char) (maxWidth : ℚ)
    (style : TextStyle) : List Char :=
  let ellipsisWidth := w style OVERFLOW_ELLIPSIS
  let targetWidth := maxWidth - ellipsisWidth
  if targetWidth ≤ 0 then OVERFLOW_ELLIPSIS
  else jsTrim (reflowTruncLoop (w style) targetWidth text) ++ OVERFLOW_ELLIPSIS

/-! ## ReflowEngine.calculateReflow and adjustFollowingBlocks -/

/-- BoundingBox `{x, y, width, height}` (`@core/types`), rational
coordinates. -/
structure BoundingBox where
  x : ℚ
  y : ℚ
  width : ℚ
  height : ℚ
deriving DecidableEq, Repr

/-- ReflowResult (part_014:13-19). -/
structure ReflowResult where
  fits : Bool
  overflow : ℚ
  truncatedText : Option (List Char) := none
  lines : Option (List (List Char)) := none
  adjustedPosition : Option (ℚ × ℚ) := none
deriving DecidableEq, Repr

/-- `ReflowEngine.calculateReflow(originalText, newText, originalBounds,
style)` (part_014:46-74): `overflow = width(newText) - bounds.width`;
fits (overflow 0) when `overflow ≤ 0`, else not-fits with
`truncatedText = truncateToFit(newText, bounds.width, style)`. -/
def ReflowEngine.calculateReflow (w : Measure) (originalText newText : List Char)
    (originalBounds : BoundingBox) (style : TextStyle) : ReflowResult :=
  let _originalWidth := w style originalText
  let newWidth := w style newText
  let overflow := newWidth - originalBounds.width
  if overflow ≤ 0 then
    { fits := true, overflow := 0 }
  else
    { fits := false, overflow := overflow,
      truncatedText := some (ReflowEngine.truncateToFit w newText originalBounds.width style) }

/-- CharBox (`@core/types`, part_010:73-83). -/
structure CharBox where
  char : String
  index : ℕ
  x : ℚ
  y : ℚ
  width : ℚ
  height : ℚ
  baseline : ℚ
  fontName : Option String := none
  fontSize : Option ℚ := none
deriving DecidableEq, Repr

/-- `ReflowEngine.adjustFollowingBlocks(blocks, startX, delta)`
(part_014:142-156): map over blocks; a block with `x > startX` has
`delta` added to its `x` (spread keeps all other fields), others pass
through. -/
def ReflowEngine.adjustFollowingBlocks (blocks : List CharBox) (startX delta : ℚ) :
    List CharBox :=
  blocks.map (fun box => if startX < box.x then { box with x := box.x + delta } else box)

/-! ## EditManager (part_013)

The JS `Map<string, Edit>` is an association list with insertion-order
`set` (overwrite in place) semantics.  `Date` timestamps and the ids
from `generateId` (lazyLoader.ts:91-93, derived from `Date.now()` and
`Math.random()`) are platform nondeterminism, modelled as explicit
`time`/`editId` parameters.
The event bus and logger have no effect on the manager's state and are
omitted. -/

/-- Edit status: `pending`, `applied` or `undone`. -/
inductive EditStatus where
  | pending
  | applied
  | undone
deriving DecidableEq, Repr

/-- `Partial<TextStyle>` as passed to `confirmEdit`: every field optional. -/
structure StylePatch where
  fontFamily : Option String := none
  fontSize : Option ℚ := none
  fontWeight : Option String := none
  fontStyle : Option String := none
  textDecoration : Option String := none
  color : Option String := none
  backgroundColor : Option String := none
  lineHeight : Option ℚ := none
deriving DecidableEq, Repr

/-- JS object spread `{...base, ...patch}`: present patch fields win. -/
def mergeStyle (base : TextStyle) (p : StylePatch) : TextStyle :=
  { fontFamily := p.fontFamily.getD base.fontFamily,
    fontSize := p.fontSize.getD base.fontSize,
    fontWeight := p.fontWeight.getD base.fontWeight,
    fontStyle := p.fontStyle.getD base.fontStyle,
    textDecoration := p.textDecoration.getD base.textDecoration,
    color := p.color.getD base.color,
    backgroundColor := p.backgroundColor.getD base.backgroundColor,
    lineHeight := p.lineHeight.getD base.lineHeight }

/-- Edit record (`@core/types`; fields as built by `startEdit`). -/
structure Edit where
  id : String
  pageNumber : ℕ
  timestamp : ℕ
  type : String
  originalText : String
  newText : String
  position : ℚ × ℚ
  originalStyle : TextStyle
  newStyle : TextStyle
  boundingBox : BoundingBox
  erasureArea : BoundingBox
  status : EditStatus
deriving DecidableEq, Repr

/-- EditOperation: historical snapshot appended on confirm. -/
structure EditOperation where
  id : String
  pageNum : ℕ
  blockId : String
  originalText : String
  newText : String
  originalStyle : TextStyle
  newStyle : TextStyle
  timestamp : ℕ
deriving DecidableEq, Repr

/-- JS `Map.set`: overwrite in place when the key exists, else append. -/
def mapSet {α : Type} : List (String × α) → String → α → List (String × α)
  | [], k, v => [(k, v)]
  | (k', v') :: rest, k, v =>
    if k' = k then (k, v) :: rest else (k', v') :: mapSet rest k v

/-- The EditManager instance state (part_013:16-19). -/
structure EMState where
  edits : List (String × Edit)
  history : List EditOperation
  historyIndex : ℤ
  activeEditId : Option String
deriving DecidableEq, Repr

/-- A fresh EditManager: empty map, empty history, `historyIndex = -1`. -/
def EMState.initial : EMState :=
  { edits := [], history := [], historyIndex := -1, activeEditId := none }

/-- `EditManager.startEdit` (part_013:24-62): build a pending Edit,
insert it, set the active pointer.  The generated id and the clock are
parameters. -/
def EMState.startEdit (s : EMState) (editId : String) (pageNum : ℕ)
    (_blockId : String) (originalText : String) (position : ℚ × ℚ)
    (boundingBox : BoundingBox) (originalStyle : TextStyle) (time : ℕ) :
    Edit × EMState :=
  let edit : Edit :=
    { id := editId, pageNumber := pageNum, timestamp := time,
      type := "text-replace", originalText := originalText,
      newText := originalText, position := position,
      originalStyle := originalStyle, newStyle := originalStyle,
      boundingBox := boundingBox, erasureArea := boundingBox,
      status := .pending }
  (edit, { s with edits := mapSet s.edits editId edit, activeEditId := some editId })

/-- `EditManager.confirmEdit` (part_013:67-121): throws `Edit not found`
for an unknown id; otherwise updates the edit, truncates the redo suffix,
appends an EditOperation, advances the cursor, and evicts the oldest
entry (decrementing the cursor) past `MAX_HISTORY_SIZE`. -/
def EMState.confirmEdit (s : EMState) (editId : String) (newText : String)
    (newStyle : Option StylePatch) (time : ℕ) : Except String (Edit × EMState) :=
  match s.edits.lookup editId with
  | none => .error ("Edit not found: " ++ editId)
  | some edit =>
    let edit : Edit :=
      { edit with
        newText := newText,
        newStyle := match newStyle with
          | some p => mergeStyle edit.newStyle p
          | none => edit.newStyle,
        status := .applied,
        timestamp := time }
    let operation : EditOperation :=
      { id := edit.id, pageNum := edit.pageNumber, blockId := edit.id,
        originalText := edit.originalText, newText := edit.newText,
        originalStyle := edit.originalStyle, newStyle := edit.newStyle,
        timestamp := edit.timestamp }
    let history := s.history.take (s.historyIndex + 1).toNat ++ [operation]
    let historyIndex := s.historyIndex + 1
    let trimmed : List EditOperation × ℤ :=
      if MAX_HISTORY_SIZE < history.length then (history.tail, historyIndex - 1)
      else (history, historyIndex)
    .ok (edit,
      { s with
        edits := mapSet s.edits editId edit,
        history := trimmed.1, historyIndex := trimmed.2,
        activeEditId := none })

/-- `EditManager.cancelEdit` (part_013:126-141): warn-and-return when the
id is missing; otherwise delete the entry and clear the active pointer if
it pointed to this edit.  Never touches the history. -/
def EMState.cancelEdit (s : EMState) (editId : String) : EMState :=
  match s.edits.lookup editId with
  | none => s
  | some _ =>
    { s with
      edits := s.edits.filter (fun p => p.1 ≠ editId),
      activeEditId := if s.activeEditId = some editId then none else s.activeEditId }

/-- `EditManager.canUndo` (part_013:195-197). -/
def EMState.canUndo (s : EMState) : Bool := decide (0 ≤ s.historyIndex)

/-- `EditManager.canRedo` (part_013:202-204). -/
def EMState.canRedo (s : EMState) : Bool :=
  decide (s.historyIndex < (s.history.length : ℤ) - 1)

/-- `EditManager.undo` (part_013:146-165): when `canUndo`, read the
operation at the cursor, mark its edit `undone` when the edit still
exists, decrement the cursor, and return the operation.  The `none`
branch of the array read is unreachable: the source indexes
`history[historyIndex]` directly and every reachable state has
`historyIndex < history.length`. -/
def EMState.undo (s : EMState) : Option EditOperation × EMState :=
  if s.canUndo then
    match s.history[s.historyIndex.toNat]? with
    | some operation =>
      let edits := match s.edits.lookup operation.id with
        | some edit => mapSet s.edits operation.id { edit with status := .undone }
        | none => s.edits
      (some operation, { s with edits := edits, historyIndex := s.historyIndex - 1 })
    | none => (none, s)
  else (none, s)

/-- `EditManager.redo` (part_013:170-190): when `canRedo`, advance the
cursor, read the operation there, mark its edit `applied` when the edit
still exists, and return the operation.  The `none` branch of the array
read is unreachable as in `undo`. -/
def EMState.redo (s : EMState) : Option EditOperation × EMState :=
  if s.canRedo then
    let historyIndex := s.historyIndex + 1
    match s.history[historyIndex.toNat]? with
    | some operation =>
      let edits := match s.edits.lookup operation.id with
        | some edit => mapSet s.edits operation.id { edit with status := .applied }
        | none => s.edits
      (some operation, { s with edits := edits, historyIndex := historyIndex })
    | none => (none, { s with historyIndex := historyIndex })
  else (none, s)

/-- `EditManager.clearAll` (part_013:263-269). -/
def EMState.clearAll (_s : EMState) : EMState := EMState.initial

/-- `EditManager.clearPage` (part_013:274-281): delete every edit of the
page; history, cursor and active pointer untouched. -/
def EMState.clearPage (s : EMState) (pageNum : ℕ) : EMState :=
  { s with edits := s.edits.filter (fun p => p.2.pageNumber ≠ pageNum) }

/-- One EditManager call, with the external inputs (fresh id, clock)
made explicit. -/
inductive EMOp where
  | start (editId : String) (pageNum : ℕ) (blockId : String)
      (originalText : String) (position : ℚ × ℚ) (boundingBox : BoundingBox)
      (originalStyle : TextStyle) (time : ℕ)
  | confirm (editId : String) (newText : String) (newStyle : Option StylePatch)
      (time : ℕ)
  | cancel (editId : String)
  | undo
  | redo
  | clearAll
  | clearPage (pageNum : ℕ)

/-- Execute one call.  A `confirmEdit` that throws leaves the state
unchanged (the source throws before any mutation). -/
def EMState.apply (s : EMState) : EMOp → EMState
  | .start id p b o pos bb st t => (s.startEdit id p b o pos bb st t).2
  | .confirm id nt ns t =>
    match s.confirmEdit id nt ns t with
    | .ok (_, s') => s'
    | .error _ => s
  | .cancel id => s.cancelEdit id
  | .undo => s.undo.2
  | .redo => s.redo.2
  | .clearAll => s.clearAll
  | .clearPage p => s.clearPage p

/-- Execute a sequence of calls from a given state. -/
def EMState.runFrom (s : EMState) : List EMOp → EMState
  | [] => s
  | op :: ops => (s.apply op).runFrom ops

/-- Execute a sequence of calls on a fresh EditManager. -/
def EMState.run (ops : List EMOp) : EMState := EMState.initial.runFrom ops

/-! ### EditManager invariants -/

/-- Invariant of every reachable EditManager state: the cursor stays in
`[-1, history.length)` and the log never exceeds `MAX_HISTORY_SIZE`. -/
def EMState.WF (s : EMState) : Prop :=
  -1 ≤ s.historyIndex ∧ s.historyIndex < (s.history.length : ℤ) ∧
    s.history.length ≤ MAX_HISTORY_SIZE

theorem EMState.wf_initial : EMState.initial.WF := by
  refine ⟨by norm_num [EMState.initial], by norm_num [EMState.initial],
    by norm_num [EMState.initial, MAX_HISTORY_SIZE]⟩

theorem EMState.confirmEdit_ok_shape {s : EMState} {eid nt : String}
    {ns : Option StylePatch} {t : ℕ} {e : Edit} {s' : EMState}
    (h : s.confirmEdit eid nt ns t = .ok (e, s')) :
    (¬ MAX_HISTORY_SIZE < (s.history.take (s.historyIndex + 1).toNat).length + 1 →
      s'.historyIndex = s.historyIndex + 1 ∧
      s'.history.length = (s.history.take (s.historyIndex + 1).toNat).length + 1) ∧
    (MAX_HISTORY_SIZE < (s.history.take (s.historyIndex + 1).toNat).length + 1 →
      s'.historyIndex = s.historyIndex ∧
      s'.history.length = (s.history.take (s.historyIndex + 1).toNat).length) := by
  unfold EMState.confirmEdit at h
  cases hl : s.edits.lookup eid with
  | none => rw [hl] at h; exact absurd h (by simp)
  | some edit =>
    rw [hl] at h
    simp only [Except.ok.injEq, Prod.mk.injEq] at h
    obtain ⟨_, hs⟩ := h
    subst hs
    constructor
    · intro hle
      rw [if_neg (by simpa using hle)]
      simp
    · intro hgt
      rw [if_pos (by simpa using hgt)]
      simp [List.length_tail]

theorem EMState.confirmEdit_wf {s : EMState} (hw : s.WF) {eid nt : String}
    {ns : Option StylePatch} {t : ℕ} {e : Edit} {s' : EMState}
    (h : s.confirmEdit eid nt ns t = .ok (e, s')) : s'.WF := by
  obtain ⟨h1, h2, h3⟩ := hw
  have hshape := EMState.confirmEdit_ok_shape h
  have hlen : (s.history.take (s.historyIndex + 1).toNat).length =
      min (s.historyIndex + 1).toNat s.history.length := List.length_take ..
  by_cases hc : MAX_HISTORY_SIZE < (s.history.take (s.historyIndex + 1).toNat).length + 1
  · obtain ⟨hi, hl⟩ := hshape.2 hc
    exact ⟨by omega, by rw [hi, hl]; omega, by omega⟩
  · obtain ⟨hi, hl⟩ := hshape.1 hc
    exact ⟨by omega, by rw [hi, hl]; omega, by omega⟩

theorem EMState.apply_wf {s : EMState} (h : s.WF) (op : EMOp) : (s.apply op).WF := by
  obtain ⟨h1, h2, h3⟩ := h
  cases op with
  | start id p b o pos bb st t => exact ⟨h1, h2, h3⟩
  | confirm id nt ns t =>
    simp only [EMState.apply]
    cases hc : s.confirmEdit id nt ns t with
    | error _ => exact ⟨h1, h2, h3⟩
    | ok v =>
      obtain ⟨e, s'⟩ := v
      exact EMState.confirmEdit_wf ⟨h1, h2, h3⟩ hc
  | cancel id =>
    simp only [EMState.apply, EMState.cancelEdit]
    cases s.edits.lookup id with
    | none => exact ⟨h1, h2, h3⟩
    | some _ => exact ⟨h1, h2, h3⟩
  | undo =>
    simp only [EMState.apply, EMState.undo]
    by_cases hu : s.canUndo
    · rw [if_pos hu]
      have hu' : 0 ≤ s.historyIndex := by
        simpa [EMState.canUndo] using hu
      cases s.history[s.historyIndex.toNat]? with
      | some operation =>
        refine ⟨?_, ?_, ?_⟩
        · show -1 ≤ s.historyIndex - 1
          omega
        · show s.historyIndex - 1 < (s.history.length : ℤ)
          omega
        · exact h3
      | none => exact ⟨h1, h2, h3⟩
    · rw [if_neg hu]; exact ⟨h1, h2, h3⟩
  | redo =>
    simp only [EMState.apply, EMState.redo]
    by_cases hr : s.canRedo
    · rw [if_pos hr]
      have hr' : s.historyIndex < (s.history.length : ℤ) - 1 := by
        simpa [EMState.canRedo] using hr
      cases s.history[(s.historyIndex + 1).toNat]? with
      | some operation =>
        refine ⟨?_, ?_, ?_⟩
        · show -1 ≤ s.historyIndex + 1
          omega
        · show s.historyIndex + 1 < (s.history.length : ℤ)
          omega
        · exact h3
      | none =>
        refine ⟨?_, ?_, ?_⟩
        · show -1 ≤ s.historyIndex + 1
          omega
        · show s.historyIndex + 1 < (s.history.length : ℤ)
          omega
        · exact h3
    · rw [if_neg hr]; exact ⟨h1, h2, h3⟩
  | clearAll => exact EMState.wf_initial
  | clearPage p => exact ⟨h1, h2, h3⟩

theorem EMState.runFrom_wf {s : EMState} (h : s.WF) (ops : List EMOp) :
    (s.runFrom ops).WF := by
  induction ops generalizing s with
  | nil => exact h
  | cons op ops ih => exact ih (EMState.apply_wf h op)

theorem EMState.run_wf (ops : List EMOp) : (EMState.run ops).WF :=
  EMState.runFrom_wf EMState.wf_initial ops

/-- After any successful `confirmEdit` from a state whose cursor is
≥ -1, `canRedo` is false: the redo suffix was discarded and the cursor
points at the last entry (also after eviction). -/
theorem EMState.canRedo_after_confirmEdit {s : EMState}
    (hidx : -1 ≤ s.historyIndex) {eid nt : String} {ns : Option StylePatch}
    {t : ℕ} {e : Edit} {s' : EMState}
    (h : s.confirmEdit eid nt ns t = .ok (e, s')) : s'.canRedo = false := by
  have hshape := EMState.confirmEdit_ok_shape h
  have hlen : (s.history.take (s.historyIndex + 1).toNat).length =
      min (s.historyIndex + 1).toNat s.history.length := List.length_take ..
  simp only [EMState.canRedo, decide_eq_false_iff_not, not_lt]
  by_cases hc : MAX_HISTORY_SIZE < (s.history.take (s.historyIndex + 1).toNat).length + 1
  · obtain ⟨hi, hl⟩ := hshape.2 hc
    rw [hi, hl]
    omega
  · obtain ⟨hi, hl⟩ := hshape.1 hc
    rw [hi, hl]
    omega

/-! ### Concrete fixtures used by witnesses and counterexamples -/

/-- A plain 12px style, as in the repository's tests. -/
def styleA : TextStyle :=
  { fontFamily := "Arial", fontSize := 12, fontWeight := "normal",
    fontStyle := "normal", textDecoration := "none", color := "#000000",
    backgroundColor := "transparent", lineHeight := 6 / 5 }

/-- The bounding box used in the repository's TextEraser test. -/
def bboxA : BoundingBox := { x := 40, y := 30, width := 80, height := 12 }

/-- C1: for every sequence of EditManager operations, immediately after
any successful `confirmEdit` call `canRedo()` returns false (even if a
prior `undo()` had made it true), and at every reachable state
`canUndo()` returns true iff the history cursor is ≥ 0. -/
theorem EMState.confirm_kills_redo_and_canUndo_iff_cursor (ops : List EMOp) :
    (∀ (eid nt : String) (ns : Option StylePatch) (t : ℕ) (e : Edit) (s' : EMState),
        (EMState.run ops).confirmEdit eid nt ns t = Except.ok (e, s') →
          s'.canRedo = false) ∧
    ((EMState.run ops).canUndo = true ↔ 0 ≤ (EMState.run ops).historyIndex) := by
  refine ⟨fun eid nt ns t e s' h => ?_, ?_⟩
  · exact EMState.canRedo_after_confirmEdit (EMState.run_wf ops).1 h
  · simp [EMState.canUndo]

/-- Witness for C1: start/confirm/undo makes `canRedo` true, and the next
`confirmEdit` makes it false again. -/
theorem EMState.confirm_kills_redo_witness :
    (EMState.run [EMOp.start "e1" 1 "b1" "Hello" (0, 0) bboxA styleA 0,
        EMOp.confirm "e1" "Hi" none 1, EMOp.undo,
        EMOp.confirm "e1" "Bye" none 2]).canRedo = false :=
  (EMState.confirm_kills_redo_and_canUndo_iff_cursor
      [EMOp.start "e1" 1 "b1" "Hello" (0, 0) bboxA styleA 0,
       EMOp.confirm "e1" "Hi" none 1, EMOp.undo]).1 "e1" "Bye" none 2 _ _ rfl

/-! ### The ring-buffer shape of the history (C2) -/

theorem EMState.runFrom_append (s : EMState) (l1 l2 : List EMOp) :
    s.runFrom (l1 ++ l2) = (s.runFrom l1).runFrom l2 := by
  induction l1 generalizing s with
  | nil => rfl
  | cons op ops ih => exact ih (s.apply op)

theorem lookup_mapSet_self {α : Type} (m : List (String × α)) (k : String) (v : α) :
    (mapSet m k v).lookup k = some v := by
  induction m with
  | nil => simp [mapSet, List.lookup]
  | cons p rest ih =>
    obtain ⟨k', v'⟩ := p
    by_cases h : k' = k
    · subst h
      simp [mapSet, List.lookup]
    · simp only [mapSet, if_neg h, List.lookup]
      have hb : (k == k') = false := by simpa using Ne.symm h
      simp [hb, ih]

/-- The Edit produced by `confirmEdit` for a found edit. -/
def confirmedEdit (edit : Edit) (nt : String) (ns : Option StylePatch) (t : ℕ) : Edit :=
  { edit with
    newText := nt,
    newStyle := match ns with
      | some p => mergeStyle edit.newStyle p
      | none => edit.newStyle,
    status := .applied, timestamp := t }

/-- The EditOperation appended by `confirmEdit` for a found edit. -/
def opOfConfirm (edit : Edit) (nt : String) (ns : Option StylePatch) (t : ℕ) :
    EditOperation :=
  { id := edit.id, pageNum := edit.pageNumber, blockId := edit.id,
    originalText := edit.originalText, newText := nt,
    originalStyle := edit.originalStyle,
    newStyle := (confirmedEdit edit nt ns t).newStyle, timestamp := t }

theorem EMState.confirmEdit_of_lookup {s : EMState} {eid : String} {edit : Edit}
    (hl : s.edits.lookup eid = some edit) (nt : String) (ns : Option StylePatch)
    (t : ℕ) :
    s.confirmEdit eid nt ns t =
      Except.ok (confirmedEdit edit nt ns t,
        { s with
          edits := mapSet s.edits eid (confirmedEdit edit nt ns t),
          history :=
            if MAX_HISTORY_SIZE <
                (s.history.take (s.historyIndex + 1).toNat).length + 1 then
              (s.history.take (s.historyIndex + 1).toNat
                ++ [opOfConfirm edit nt ns t]).tail
            else s.history.take (s.historyIndex + 1).toNat
                ++ [opOfConfirm edit nt ns t],
          historyIndex :=
            if MAX_HISTORY_SIZE <
                (s.history.take (s.historyIndex + 1).toNat).length + 1 then
              s.historyIndex
            else s.historyIndex + 1,
          activeEditId := none }) := by
  by_cases hc : MAX_HISTORY_SIZE < (s.history.take (s.historyIndex + 1).toNat).length + 1
  · simp only [EMState.confirmEdit, hl, if_pos hc]
    rw [if_pos (by simpa using hc)]
    simp only [confirmedEdit, opOfConfirm, Except.ok.injEq, Prod.mk.injEq,
      EMState.mk.injEq, and_true, true_and]
    omega
  · simp only [EMState.confirmEdit, hl, if_neg hc]
    rw [if_neg (by simpa using hc)]
    simp only [confirmedEdit, opOfConfirm]

/-- The data of one `startEdit`/`confirmEdit` round: the generated id,
the arguments of both calls, and the two clock readings. -/
structure ConfirmRun where
  editId : String
  pageNum : ℕ
  blockId : String
  originalText : String
  position : ℚ × ℚ
  boundingBox : BoundingBox
  originalStyle : TextStyle
  startTime : ℕ
  newText : String
  newStyle : Option StylePatch
  confirmTime : ℕ

/-- The pending Edit created by `startEdit` for round data `d`. -/
def pendingEdit (d : ConfirmRun) : Edit :=
  { id := d.editId, pageNumber := d.pageNum, timestamp := d.startTime,
    type := "text-replace", originalText := d.originalText,
    newText := d.originalText, position := d.position,
    originalStyle := d.originalStyle, newStyle := d.originalStyle,
    boundingBox := d.boundingBox, erasureArea := d.boundingBox,
    status := .pending }

/-- `n` consecutive `startEdit`/`confirmEdit` rounds. -/
def pairOps (f : ℕ → ConfirmRun) (n : ℕ) : List EMOp :=
  (List.range n).flatMap (fun i =>
    [EMOp.start (f i).editId (f i).pageNum (f i).blockId (f i).originalText
       (f i).position (f i).boundingBox (f i).originalStyle (f i).startTime,
     EMOp.confirm (f i).editId (f i).newText (f i).newStyle (f i).confirmTime])

/-- The EditOperation that round `d` appends to the history. -/
def expectedOp (d : ConfirmRun) : EditOperation :=
  opOfConfirm (pendingEdit d) d.newText d.newStyle d.confirmTime

/-- One `startEdit`/`confirmEdit` round on a state whose cursor sits at
the end of the log: the log gains `expectedOp d` at the end, evicting the
oldest entry (and keeping the cursor) when it was full. -/
theorem EMState.start_confirm_step (E : List (String × Edit))
    (H : List EditOperation) (I : ℤ) (A : Option String) (d : ConfirmRun)
    (htake : H.take (I + 1).toNat = H) :
    ((EMState.mk E H I A).apply (EMOp.start d.editId d.pageNum d.blockId
        d.originalText d.position d.boundingBox d.originalStyle
        d.startTime)).apply
      (EMOp.confirm d.editId d.newText d.newStyle d.confirmTime) =
    EMState.mk
      (mapSet (mapSet E d.editId (pendingEdit d)) d.editId
        (confirmedEdit (pendingEdit d) d.newText d.newStyle d.confirmTime))
      (if MAX_HISTORY_SIZE < H.length + 1 then (H ++ [expectedOp d]).tail
        else H ++ [expectedOp d])
      (if MAX_HISTORY_SIZE < H.length + 1 then I else I + 1)
      none := by
  have hl : (mapSet E d.editId (pendingEdit d)).lookup d.editId
      = some (pendingEdit d) := lookup_mapSet_self ..
  have hc := EMState.confirmEdit_of_lookup
    (s := EMState.mk (mapSet E d.editId (pendingEdit d)) H I (some d.editId))
    hl d.newText d.newStyle d.confirmTime
  show (EMState.mk (mapSet E d.editId (pendingEdit d)) H I
      (some d.editId)).apply
      (EMOp.confirm d.editId d.newText d.newStyle d.confirmTime) = _
  simp only [EMState.apply, hc]
  show EMState.mk _
      (if MAX_HISTORY_SIZE < (H.take (I + 1).toNat).length + 1 then
        (H.take (I + 1).toNat ++ [opOfConfirm (pendingEdit d) d.newText
          d.newStyle d.confirmTime]).tail
       else H.take (I + 1).toNat ++ [opOfConfirm (pendingEdit d) d.newText
          d.newStyle d.confirmTime])
      (if MAX_HISTORY_SIZE < (H.take (I + 1).toNat).length + 1 then I
       else I + 1) none = _
  rw [htake]
  rfl

theorem EMState.runPairs_spec (f : ℕ → ConfirmRun) (n : ℕ) :
    (EMState.run (pairOps f n)).history =
      ((List.range n).map (fun i => expectedOp (f i))).drop (n - MAX_HISTORY_SIZE) ∧
    (EMState.run (pairOps f n)).historyIndex =
      ((min n MAX_HISTORY_SIZE : ℕ) : ℤ) - 1 := by
  induction n with
  | zero =>
    refine ⟨rfl, ?_⟩
    show (-1 : ℤ) = _
    norm_num [MAX_HISTORY_SIZE]
  | succ n ih =>
    have hM : MAX_HISTORY_SIZE = 50 := rfl
    obtain ⟨ihH, ihI⟩ := ih
    have hlen : (EMState.run (pairOps f n)).history.length = min n MAX_HISTORY_SIZE := by
      rw [ihH]
      simp only [List.length_drop, List.length_map, List.length_range]
      omega
    have hsplit : pairOps f (n + 1) = pairOps f n ++
        [EMOp.start (f n).editId (f n).pageNum (f n).blockId (f n).originalText
           (f n).position (f n).boundingBox (f n).originalStyle (f n).startTime,
         EMOp.confirm (f n).editId (f n).newText (f n).newStyle (f n).confirmTime] := by
      unfold pairOps
      rw [List.range_succ, List.flatMap_append]
      simp
    set s := EMState.run (pairOps f n) with hs
    have htake : s.history.take (s.historyIndex + 1).toNat = s.history := by
      apply List.take_of_length_le
      rw [hlen, ihI]
      omega
    have hrun : EMState.run (pairOps f (n + 1)) =
        (s.apply (EMOp.start (f n).editId (f n).pageNum (f n).blockId
            (f n).originalText (f n).position (f n).boundingBox
            (f n).originalStyle (f n).startTime)).apply
          (EMOp.confirm (f n).editId (f n).newText (f n).newStyle
            (f n).confirmTime) := by
      rw [EMState.run, hsplit, EMState.runFrom_append]
      rfl
    have hstep := EMState.start_confirm_step s.edits s.history s.historyIndex
      s.activeEditId (f n) htake
    rw [hrun,
      show ((s.apply (EMOp.start (f n).editId (f n).pageNum (f n).blockId
          (f n).originalText (f n).position (f n).boundingBox
          (f n).originalStyle (f n).startTime)).apply
        (EMOp.confirm (f n).editId (f n).newText (f n).newStyle
          (f n).confirmTime)) = _ from hstep]
    by_cases hfull : MAX_HISTORY_SIZE < s.history.length + 1
    · -- n ≥ 50: the oldest entry is evicted and the cursor stays at 49
      have hn : MAX_HISTORY_SIZE ≤ n := by
        rw [hlen] at hfull
        omega
      rw [if_pos hfull, if_pos hfull]
      constructor
      · show (s.history ++ [expectedOp (f n)]).tail = _
        rw [ihH, List.range_succ, List.map_append]
        have hne : ((List.range n).map (fun i => expectedOp (f i))).drop
            (n - MAX_HISTORY_SIZE) ≠ [] := by
          intro hnil
          have := congrArg List.length hnil
          simp only [List.length_drop, List.length_map, List.length_range,
            List.length_nil] at this
          omega
        rw [List.tail_append_singleton_of_ne_nil hne, List.tail_drop,
          List.drop_append_eq_append_drop]
        have h1 : n + 1 - MAX_HISTORY_SIZE =
            (n - MAX_HISTORY_SIZE) + 1 := by omega
        have h2 : (n + 1 - MAX_HISTORY_SIZE) -
            ((List.range n).map (fun i => expectedOp (f i))).length = 0 := by
          simp only [List.length_map, List.length_range]
          omega
        rw [h2, h1]
        simp
      · show s.historyIndex = _
        rw [ihI]
        omega
    · -- n < 50: the log simply grows by one
      have hn : n < MAX_HISTORY_SIZE := by
        rw [hlen] at hfull
        omega
      rw [if_neg hfull, if_neg hfull]
      constructor
      · show s.history ++ [expectedOp (f n)] = _
        rw [ihH, List.range_succ, List.map_append]
        have h0 : n - MAX_HISTORY_SIZE = 0 := by omega
        have h0' : n + 1 - MAX_HISTORY_SIZE = 0 := by omega
        rw [h0, h0']
        simp
      · show s.historyIndex + 1 = _
        rw [ihI]
        omega

/-- C2: the history log is a fixed-capacity ring of at most 50
EditOperations: after every EditManager operation the history length is
≤ `MAX_HISTORY_SIZE`, and after confirming `n > 50` edits the log
contains exactly the EditOperations of the 50 most recent confirms
(oldest evicted first) with the cursor at 49. -/
theorem EMState.history_ring_buffer :
    (∀ ops : List EMOp, (EMState.run ops).history.length ≤ MAX_HISTORY_SIZE) ∧
    (∀ (f : ℕ → ConfirmRun) (n : ℕ), MAX_HISTORY_SIZE < n →
      (EMState.run (pairOps f n)).history =
        ((List.range n).map (fun i => expectedOp (f i))).drop (n - MAX_HISTORY_SIZE) ∧
      (EMState.run (pairOps f n)).history.length = MAX_HISTORY_SIZE ∧
      (EMState.run (pairOps f n)).historyIndex = (MAX_HISTORY_SIZE : ℤ) - 1) := by
  refine ⟨fun ops => (EMState.run_wf ops).2.2, fun f n hn => ?_⟩
  obtain ⟨hH, hI⟩ := EMState.runPairs_spec f n
  have hM : MAX_HISTORY_SIZE = 50 := rfl
  refine ⟨hH, ?_, ?_⟩
  · rw [hH]
    simp only [List.length_drop, List.length_map, List.length_range]
    omega
  · rw [hI]
    have hmin : min n MAX_HISTORY_SIZE = MAX_HISTORY_SIZE := by omega
    rw [hmin]

/-- The rounds used by the C2 witness: 51 distinct edits. -/
def cRun (i : ℕ) : ConfirmRun :=
  { editId := "e" ++ toString i, pageNum := 1, blockId := "b",
    originalText := "t", position := (0, 0), boundingBox := bboxA,
    originalStyle := styleA, startTime := i, newText := "n",
    newStyle := none, confirmTime := i }

/-- Witness for C2: after 51 confirms the log is the 50 most recent
operations with the cursor at 49. -/
theorem EMState.history_ring_buffer_witness :
    (EMState.run (pairOps cRun 51)).history =
      ((List.range 51).map (fun i => expectedOp (cRun i))).drop
        (51 - MAX_HISTORY_SIZE) ∧
    (EMState.run (pairOps cRun 51)).history.length = MAX_HISTORY_SIZE ∧
    (EMState.run (pairOps cRun 51)).historyIndex = (MAX_HISTORY_SIZE : ℤ) - 1 :=
  EMState.history_ring_buffer.2 cRun 51 (by norm_num [MAX_HISTORY_SIZE])

/-! ### cancelEdit (C4) -/

theorem lookup_filter_self (m : List (String × Edit)) (k : String) :
    (m.filter (fun p => p.1 ≠ k)).lookup k = none := by
  induction m with
  | nil => rfl
  | cons p rest ih =>
    obtain ⟨k', v'⟩ := p
    simp only [List.filter_cons]
    by_cases h : k' = k
    · rw [if_neg (by simpa using h)]
      exact ih
    · rw [if_pos (by simpa using h), List.lookup_cons,
        show (k == k') = false from by simpa using Ne.symm h]
      exact ih

theorem lookup_filter_ne (m : List (String × Edit)) (k k' : String)
    (h : k' ≠ k) : (m.filter (fun p => p.1 ≠ k)).lookup k' = m.lookup k' := by
  induction m with
  | nil => rfl
  | cons p rest ih =>
    obtain ⟨ka, va⟩ := p
    simp only [List.filter_cons]
    by_cases hk : ka = k
    · rw [if_neg (by simpa using hk), List.lookup_cons,
        show (k' == ka) = false from by subst hk; simpa using h]
      exact ih
    · rw [if_pos (by simpa using hk), List.lookup_cons, List.lookup_cons]
      cases hbe : (k' == ka) with
      | true => rfl
      | false => exact ih

/-- C4 (amended): `cancelEdit(editId)` never touches the history or the
cursor; a missing id is a no-op that raises no error; and when the id is
present the edit is removed from the map — whether or not it is the
active pending edit — with the active pointer cleared only if it pointed
to this id. -/
theorem EMState.cancelEdit_spec (s : EMState) (editId : String) :
    (s.cancelEdit editId).history = s.history ∧
    (s.cancelEdit editId).historyIndex = s.historyIndex ∧
    (s.edits.lookup editId = none → s.cancelEdit editId = s) ∧
    ((s.edits.lookup editId).isSome = true →
      (s.cancelEdit editId).edits.lookup editId = none ∧
      (∀ k, k ≠ editId → (s.cancelEdit editId).edits.lookup k = s.edits.lookup k) ∧
      (s.cancelEdit editId).activeEditId =
        (if s.activeEditId = some editId then none else s.activeEditId)) := by
  unfold EMState.cancelEdit
  cases hl : s.edits.lookup editId with
  | none =>
    exact ⟨rfl, rfl, fun _ => rfl, fun hs => by simp at hs⟩
  | some e =>
    refine ⟨rfl, rfl, fun hn => by simp at hn, fun _ => ?_⟩
    exact ⟨lookup_filter_self s.edits editId,
      fun k hk => lookup_filter_ne s.edits editId k hk, rfl⟩

/-- Witness for C4's amended claim: cancelling a present edit removes it. -/
theorem EMState.cancelEdit_spec_witness :
    ((EMState.run [EMOp.start "e1" 1 "b1" "A" (0, 0) bboxA styleA 0]).cancelEdit
      "e1").edits.lookup "e1" = none :=
  ((EMState.cancelEdit_spec
      (EMState.run [EMOp.start "e1" 1 "b1" "A" (0, 0) bboxA styleA 0])
      "e1").2.2.2 rfl).1

/-- Counterexample to C4 as stated: after starting "e1" and then "e2",
"e1" is present but is not the active pending edit, yet
`cancelEdit("e1")` removes it from the map. -/
theorem EMState.cancelEdit_removes_non_active :
    ((EMState.run [EMOp.start "e1" 1 "b1" "A" (0, 0) bboxA styleA 0,
        EMOp.start "e2" 1 "b2" "B" (0, 0) bboxA styleA 1]).activeEditId
      = some "e2") ∧
    (((EMState.run [EMOp.start "e1" 1 "b1" "A" (0, 0) bboxA styleA 0,
        EMOp.start "e2" 1 "b2" "B" (0, 0) bboxA styleA 1]).edits.lookup
      "e1").isSome = true) ∧
    (((EMState.run [EMOp.start "e1" 1 "b1" "A" (0, 0) bboxA styleA 0,
        EMOp.start "e2" 1 "b2" "B" (0, 0) bboxA styleA 1]).cancelEdit
      "e1").edits.lookup "e1" = none) := by
  refine ⟨rfl, rfl, rfl⟩

/-! ### undo/redo on operations whose edit is gone (C10) -/

/-- C10: `undo()`/`redo()` are total; even when the operation at the
cursor names an edit id no longer present in the map (e.g. after
`clearPage`), they still move the cursor by one and return that
EditOperation, leaving the edits map (hence every status) unchanged. -/
theorem EMState.undo_redo_orphan_op (s : EMState) (op : EditOperation) :
    (s.canUndo = true → s.history[s.historyIndex.toNat]? = some op →
      s.edits.lookup op.id = none →
      s.undo = (some op, { s with historyIndex := s.historyIndex - 1 })) ∧
    (s.canRedo = true → s.history[(s.historyIndex + 1).toNat]? = some op →
      s.edits.lookup op.id = none →
      s.redo = (some op, { s with historyIndex := s.historyIndex + 1 })) := by
  constructor
  · intro hu hop hmiss
    unfold EMState.undo
    rw [if_pos hu, hop]
    simp [hmiss]
  · intro hr hop hmiss
    unfold EMState.redo
    rw [if_pos hr]
    simp [hop, hmiss]

/-- Witness for C10: a state whose only history entry names an edit id
absent from the map; `undo` and `redo` still move the cursor and return
the operation. -/
theorem EMState.undo_redo_orphan_witness :
    (EMState.mk []
        [{ id := "gone", pageNum := 1, blockId := "gone", originalText := "a",
           newText := "b", originalStyle := styleA, newStyle := styleA,
           timestamp := 0 }] 0 none).undo =
      (some { id := "gone", pageNum := 1, blockId := "gone",
              originalText := "a", newText := "b", originalStyle := styleA,
              newStyle := styleA, timestamp := 0 },
        EMState.mk []
          [{ id := "gone", pageNum := 1, blockId := "gone",
             originalText := "a", newText := "b", originalStyle := styleA,
             newStyle := styleA, timestamp := 0 }] (-1) none) ∧
    (EMState.mk []
        [{ id := "gone", pageNum := 1, blockId := "gone", originalText := "a",
           newText := "b", originalStyle := styleA, newStyle := styleA,
           timestamp := 0 }] (-1) none).redo =
      (some { id := "gone", pageNum := 1, blockId := "gone",
              originalText := "a", newText := "b", originalStyle := styleA,
              newStyle := styleA, timestamp := 0 },
        EMState.mk []
          [{ id := "gone", pageNum := 1, blockId := "gone",
             originalText := "a", newText := "b", originalStyle := styleA,
             newStyle := styleA, timestamp := 0 }] 0 none) :=
  ⟨(EMState.undo_redo_orphan_op _ _).1 rfl rfl rfl,
   (EMState.undo_redo_orphan_op _ _).2 rfl rfl rfl⟩

/-! ### The two truncation loops compared (C6) -/

theorem truncGo_link (width : List Char → ℚ) (target : ℚ) :
    ∀ (fuel : ℕ) (t : List Char), fuel = t.length →
      eraseTruncGo width target fuel t =
        reflowTruncGo width target fuel t ++ OVERFLOW_ELLIPSIS := by
  intro fuel
  induction fuel with
  | zero =>
    intro t ht
    cases t with
    | nil => rfl
    | cons c cs => simp at ht
  | succ fuel ih =>
    intro t ht
    cases t with
    | nil => rfl
    | cons c cs =>
      rw [eraseTruncGo, reflowTruncGo]
      by_cases hw : width (c :: cs) ≤ target
      · rw [if_pos hw, if_neg (not_lt.mpr hw)]
      · rw [if_neg hw, if_pos (lt_of_not_le hw)]
        refine ih (c :: cs).dropLast ?_
        simp only [List.length_cons, List.dropLast_cons_of_ne_nil,
          List.length_dropLast] at ht ⊢
        omega

theorem reflowTruncGo_isPrefix (width : List Char → ℚ) (target : ℚ) :
    ∀ (fuel : ℕ) (t : List Char), reflowTruncGo width target fuel t <+: t := by
  intro fuel
  induction fuel with
  | zero =>
    intro t
    cases t with
    | nil => exact List.nil_prefix
    | cons c cs => exact List.prefix_refl _
  | succ fuel ih =>
    intro t
    cases t with
    | nil => exact List.nil_prefix
    | cons c cs =>
      rw [reflowTruncGo]
      by_cases hw : target < width (c :: cs)
      · rw [if_pos hw]
        refine (ih (c :: cs).dropLast).trans ?_
        exact List.dropLast_prefix _
      · rw [if_neg hw]

theorem dropWhile_eq_self_of_forall {p : Char → Bool} {l : List Char}
    (h : ∀ c ∈ l, p c = false) : l.dropWhile p = l := by
  cases l with
  | nil => rfl
  | cons a as =>
    rw [List.dropWhile_cons, if_neg]
    simp [h a (List.mem_cons_self a as)]

theorem jsTrim_eq_self {l : List Char}
    (h : ∀ c ∈ l, jsWhitespace c = false) : jsTrim l = l := by
  unfold jsTrim
  rw [dropWhile_eq_self_of_forall h,
    dropWhile_eq_self_of_forall (fun c hc => h c (List.mem_reverse.mp hc))]
  exact List.reverse_reverse l

/-- C6 (amended): `truncateToFit` and `truncateText` run the same
last-character-dropping loop on the same measure, but `truncateToFit`
additionally trims JS whitespace from the kept prefix before appending
the ellipsis; consequently the two return the same string for every
text containing no JS-whitespace characters (and differ exactly by
that trim otherwise). -/
theorem ReflowEngine.truncateToFit_eq_truncateText (w : Measure)
    (style : TextStyle) (maxWidth : ℚ) (text : List Char)
    (h : ∀ c ∈ text, jsWhitespace c = false) :
    ReflowEngine.truncateToFit w text maxWidth style =
      TextEraser.truncateText w text style maxWidth := by
  simp only [ReflowEngine.truncateToFit, TextEraser.truncateText]
  by_cases ht : maxWidth - w style OVERFLOW_ELLIPSIS ≤ 0
  · rw [if_pos ht, if_pos ht]
  · rw [if_neg ht, if_neg ht]
    rw [show eraseTruncLoop (w style) (maxWidth - w style OVERFLOW_ELLIPSIS) text =
        reflowTruncLoop (w style) (maxWidth - w style OVERFLOW_ELLIPSIS) text
          ++ OVERFLOW_ELLIPSIS from truncGo_link (w style) _ _ text rfl]
    congr 1
    refine jsTrim_eq_self (fun c hc => h c ?_)
    exact (reflowTruncGo_isPrefix (w style) _ text.length text).subset hc

/-- A concrete measure for witnesses and counterexamples: one width unit
per character. -/
def charCountMeasure : Measure := fun _ s => (s.length : ℚ)

/-- Witness for C6's amended claim: on whitespace-free text the two
truncation functions agree. -/
theorem ReflowEngine.truncateToFit_eq_truncateText_witness :
    ReflowEngine.truncateToFit charCountMeasure ['a', 'b', 'c'] 5 styleA =
      TextEraser.truncateText charCountMeasure ['a', 'b', 'c'] styleA 5 :=
  ReflowEngine.truncateToFit_eq_truncateText charCountMeasure styleA 5
    ['a', 'b', 'c'] (by decide)

/-- Counterexample to C6 as stated: under one shared measure (one unit
per character), on text "a " with maxWidth 5 the kept prefix is "a ";
`truncateToFit` trims it and returns "a..." while `truncateText`
returns "a ...". -/
theorem truncate_algorithms_differ :
    ReflowEngine.truncateToFit charCountMeasure ['a', ' '] 5 styleA =
      ['a', '.', '.', '.'] ∧
    TextEraser.truncateText charCountMeasure ['a', ' '] styleA 5 =
      ['a', ' ', '.', '.', '.'] ∧
    ReflowEngine.truncateToFit charCountMeasure ['a', ' '] 5 styleA ≠
      TextEraser.truncateText charCountMeasure ['a', ' '] styleA 5 := by
  have h1 : ReflowEngine.truncateToFit charCountMeasure ['a', ' '] 5 styleA =
      ['a', '.', '.', '.'] := by
    norm_num +decide [ReflowEngine.truncateToFit, reflowTruncLoop,
      reflowTruncGo, jsTrim, jsWhitespace, charCountMeasure,
      OVERFLOW_ELLIPSIS, List.dropWhile]
  have h2 : TextEraser.truncateText charCountMeasure ['a', ' '] styleA 5 =
      ['a', ' ', '.', '.', '.'] := by
    norm_num [TextEraser.truncateText, eraseTruncLoop, eraseTruncGo,
      charCountMeasure, OVERFLOW_ELLIPSIS]
  refine ⟨h1, h2, by rw [h1, h2]; decide⟩

/-! ### calculateReflow (C7) -/

/-- C7: for every measure, texts, bounds and style, `calculateReflow`
returns `{fits := true, overflow := 0}` with no truncated text when
`width(newText) - bounds.width ≤ 0`, and otherwise `{fits := false}`
with the exact overflow and `truncateToFit(newText, bounds.width,
style)`. -/
theorem ReflowEngine.calculateReflow_spec (w : Measure)
    (originalText newText : List Char) (bounds : BoundingBox)
    (style : TextStyle) :
    (w style newText - bounds.width ≤ 0 →
      ReflowEngine.calculateReflow w originalText newText bounds style =
        { fits := true, overflow := 0, truncatedText := none,
          lines := none, adjustedPosition := none }) ∧
    (0 < w style newText - bounds.width →
      ReflowEngine.calculateReflow w originalText newText bounds style =
        { fits := false, overflow := w style newText - bounds.width,
          truncatedText :=
            some (ReflowEngine.truncateToFit w newText bounds.width style),
          lines := none, adjustedPosition := none }) := by
  constructor
  · intro h
    simp [ReflowEngine.calculateReflow, h]
  · intro h
    simp [ReflowEngine.calculateReflow, not_le.mpr h]

/-- Witness for C7, exercising both branches: the spec's scenario
`calculateReflow("Hello", "Hi", width 200)` fits, and a 6-character text
in a width-4 box overflows by 2 and is truncated. -/
theorem ReflowEngine.calculateReflow_spec_witness :
    (ReflowEngine.calculateReflow charCountMeasure
        ['H', 'e', 'l', 'l', 'o'] ['H', 'i']
        { x := 0, y := 0, width := 200, height := 20 } styleA =
      { fits := true, overflow := 0, truncatedText := none,
        lines := none, adjustedPosition := none }) ∧
    (ReflowEngine.calculateReflow charCountMeasure
        ['H', 'i'] ['H', 'e', 'l', 'l', 'o', '!']
        { x := 0, y := 0, width := 4, height := 20 } styleA =
      { fits := false,
        overflow := charCountMeasure styleA ['H', 'e', 'l', 'l', 'o', '!'] -
          ({ x := 0, y := 0, width := 4, height := 20 } : BoundingBox).width,
        truncatedText := some (ReflowEngine.truncateToFit charCountMeasure
          ['H', 'e', 'l', 'l', 'o', '!'] 4 styleA),
        lines := none, adjustedPosition := none }) :=
  ⟨(ReflowEngine.calculateReflow_spec charCountMeasure
      ['H', 'e', 'l', 'l', 'o'] ['H', 'i']
      { x := 0, y := 0, width := 200, height := 20 } styleA).1
    (by norm_num [charCountMeasure]),
   (ReflowEngine.calculateReflow_spec charCountMeasure
      ['H', 'i'] ['H', 'e', 'l', 'l', 'o', '!']
      { x := 0, y := 0, width := 4, height := 20 } styleA).2
    (by norm_num [charCountMeasure])⟩

/-! ### adjustFollowingBlocks (C9) -/

/-- A CharBox fixture at a given x, used by the C9 example. -/
def cbAt (x : ℚ) : CharBox :=
  { char := "c", index := 0, x := x, y := 0, width := 5, height := 10,
    baseline := 8 }

/-- C9: `adjustFollowingBlocks` returns a list of the same length and
order where every block with `x` strictly greater than `startX` has
`delta` added to its `x` and every other block (including `x = startX`)
passes through, all other fields unchanged; the spec's example yields
x-coordinates `[10, 55, 95]`. -/
theorem ReflowEngine.adjustFollowingBlocks_spec :
    (∀ (blocks : List CharBox) (startX delta : ℚ),
      (ReflowEngine.adjustFollowingBlocks blocks startX delta).length
        = blocks.length ∧
      (∀ (i : ℕ) (b b' : CharBox), blocks[i]? = some b →
        (ReflowEngine.adjustFollowingBlocks blocks startX delta)[i]? = some b' →
        b'.char = b.char ∧ b'.index = b.index ∧ b'.y = b.y ∧
        b'.width = b.width ∧ b'.height = b.height ∧
        b'.baseline = b.baseline ∧ b'.fontName = b.fontName ∧
        b'.fontSize = b.fontSize ∧
        b'.x = (if startX < b.x then b.x + delta else b.x))) ∧
    (ReflowEngine.adjustFollowingBlocks [cbAt 10, cbAt 40, cbAt 80] 30 15).map
      (fun b => b.x) = [10, 55, 95] := by
  constructor
  · intro blocks startX delta
    constructor
    · simp [ReflowEngine.adjustFollowingBlocks]
    · intro i b b' hb hb'
      rw [ReflowEngine.adjustFollowingBlocks, List.getElem?_map, hb] at hb'
      have hb2 : b' = if startX < b.x then { b with x := b.x + delta } else b := by
        simpa using hb'.symm
      subst hb2
      by_cases hx : startX < b.x
      · rw [if_pos hx]
        simp [if_pos hx]
      · rw [if_neg hx]
        simp [if_neg hx]
  · norm_num [ReflowEngine.adjustFollowingBlocks, cbAt]

/-- Witness for C9: the middle block of the example (x = 40 > 30) moves
to x = 55 with every other field unchanged. -/
theorem ReflowEngine.adjustFollowingBlocks_spec_witness :
    ({ cbAt 40 with x := 55 } : CharBox).char = (cbAt 40).char ∧
    ({ cbAt 40 with x := 55 } : CharBox).index = (cbAt 40).index ∧
    ({ cbAt 40 with x := 55 } : CharBox).y = (cbAt 40).y ∧
    ({ cbAt 40 with x := 55 } : CharBox).width = (cbAt 40).width ∧
    ({ cbAt 40 with x := 55 } : CharBox).height = (cbAt 40).height ∧
    ({ cbAt 40 with x := 55 } : CharBox).baseline = (cbAt 40).baseline ∧
    ({ cbAt 40 with x := 55 } : CharBox).fontName = (cbAt 40).fontName ∧
    ({ cbAt 40 with x := 55 } : CharBox).fontSize = (cbAt 40).fontSize ∧
    ({ cbAt 40 with x := 55 } : CharBox).x =
      (if (30 : ℚ) < (cbAt 40).x then (cbAt 40).x + 15 else (cbAt 40).x) :=
  (ReflowEngine.adjustFollowingBlocks_spec.1
      [cbAt 10, cbAt 40, cbAt 80] 30 15).2 1 (cbAt 40)
    { cbAt 40 with x := 55 } rfl
    (by norm_num [ReflowEngine.adjustFollowingBlocks, cbAt])

/-! ## Pixel surfaces (canvas model)

An RGBA raster with integer pixel coordinates.  Channels and alpha are
byte-scaled rationals (`getImageData` values); source-over compositing
is exact rational arithmetic.  The geometry handled by the claims is
integral, so bounding boxes are embedded with ℤ coordinates
(`Math.floor` on them is the identity). -/

/-- An RGBA pixel (byte scale: 255 is fully opaque). -/
structure Pixel where
  r : ℚ
  g : ℚ
  b : ℚ
  a : ℚ
deriving DecidableEq, Repr

/-- A fully transparent pixel, the initial canvas content. -/
def transparent : Pixel := ⟨0, 0, 0, 0⟩

/-- A parsed RGB fill color (CSS color strings are modelled post-parse;
`eraseText` callers pass hex strings, which `parseColor` maps to this
triple). -/
structure Color where
  r : ℚ
  g : ℚ
  b : ℚ
deriving DecidableEq, Repr

/-- A fully opaque pixel of the given color (a canvas fill with a plain
CSS color paints with alpha 255). -/
def solidPixel (c : Color) : Pixel := ⟨c.r, c.g, c.b, 255⟩

/-- A fixed-size RGBA raster; `px i j` is meaningful on
`0 ≤ i < width`, `0 ≤ j < height`. -/
structure Surface where
  width : ℤ
  height : ℤ
  px : ℤ → ℤ → Pixel

/-- An integer pixel rectangle (BoundingBox with integral fields). -/
structure IRect where
  x : ℤ
  y : ℤ
  width : ℤ
  height : ℤ
deriving DecidableEq, Repr

/-- Source-over compositing of a source fragment onto a destination
pixel, non-premultiplied, byte-scaled, exact in ℚ. -/
def blendOver (src dst : Pixel) : Pixel :=
  let outA := src.a + dst.a * (255 - src.a) / 255
  if outA = 0 then transparent
  else
    ⟨(src.r * src.a + dst.r * dst.a * (255 - src.a) / 255) / outA,
     (src.g * src.a + dst.g * dst.a * (255 - src.a) / 255) / outA,
     (src.b * src.a + dst.b * dst.a * (255 - src.a) / 255) / outA,
     outA⟩

/-- `ctx.fillRect` with a plain color fill style: pixels covered by the
rectangle and lying on the canvas become opaque `c`; everything else is
untouched (the canvas silently clips). -/
def Surface.fillRect (s : Surface) (x y w h : ℤ) (c : Color) : Surface :=
  { s with px := fun i j =>
      if x ≤ i ∧ i < x + w ∧ y ≤ j ∧ j < y + h ∧
         0 ≤ i ∧ i < s.width ∧ 0 ≤ j ∧ j < s.height
      then solidPixel c else s.px i j }

/-- `ctx.fillRect` with a gradient fill style whose sampled alpha at
pixel column `i` is `alpha i` (byte scale): covered on-canvas pixels are
source-over blended. -/
def Surface.fillRectGradient (s : Surface) (x y w h : ℤ) (c : Color)
    (alpha : ℤ → ℚ) : Surface :=
  { s with px := fun i j =>
      if x ≤ i ∧ i < x + w ∧ y ≤ j ∧ j < y + h ∧
         0 ≤ i ∧ i < s.width ∧ 0 ≤ j ∧ j < s.height
      then blendOver ⟨c.r, c.g, c.b, alpha i⟩ (s.px i j) else s.px i j }

/-- The sampled alpha of a width-`blur` linear ramp rising 0→255 from
`x0` (canvas samples the gradient at the pixel center, clamped). -/
def rampUpAlpha (x0 blur i : ℤ) : ℚ :=
  255 * max 0 (min 1 (((i : ℚ) + 1 / 2 - (x0 : ℚ)) / (blur : ℚ)))

/-- The sampled alpha of a width-`blur` linear ramp falling 255→0
toward `x1`. -/
def rampDownAlpha (x1 blur i : ℤ) : ℚ :=
  255 * max 0 (min 1 (((x1 : ℚ) - ((i : ℚ) + 1 / 2)) / (blur : ℚ)))

/-- `getImageData`: out-of-bounds pixels read as transparent black (the
canvas pads the returned buffer). -/
def Surface.readPx (s : Surface) (i j : ℤ) : Pixel :=
  if 0 ≤ i ∧ i < s.width ∧ 0 ≤ j ∧ j < s.height then s.px i j
  else transparent

/-! ## TextEraser (BackgroundDetector.ts:344-620) -/

/-- The TextEraser instance state: the overlay canvas and the
`erasedRegions` map. -/
structure EraserState where
  overlay : Surface
  erasedRegions : List (String × IRect)

/-- `TextEraser.initialize(width, height)` (lines 346-353): clear the
overlay and the tracked regions. -/
def EraserState.initOverlay (width height : ℤ) : EraserState :=
  { overlay := ⟨width, height, fun _ _ => transparent⟩, erasedRegions := [] }

/-- `TextEraser.applySoftEdges(x, y, width, height, bgColor)`
(lines 388-423): blend a `MASK_BLUR_RADIUS`-wide 0→1 alpha ramp of
`bgColor` over the left border of the filled rectangle, and a 1→0 ramp
over its right border. -/
def applySoftEdges (ov : Surface) (x y width height : ℤ) (c : Color) : Surface :=
  let blur := MASK_BLUR_RADIUS
  let ov := ov.fillRectGradient x y blur height c (rampUpAlpha x blur)
  ov.fillRectGradient (x + width - blur) y blur height c
    (rampDownAlpha (x + width) blur)

/-- `TextEraser.eraseText(editId, bbox, bgColor, padding = 2)`
(lines 357-383): clamp only the left/top of the padded box to 0 (width
and height are not reduced and the right/bottom are not clamped), fill
the rectangle with `bgColor`, apply the soft edges, and record
`editId -> region`. -/
def EraserState.eraseText (es : EraserState) (editId : String) (bbox : IRect)
    (bgColor : Color) (padding : ℤ) : EraserState :=
  let x := max 0 (bbox.x - padding)
  let y := max 0 (bbox.y - padding)
  let width := bbox.width + padding * 2
  let height := bbox.height + padding * 2
  let ov := es.overlay.fillRect x y width height bgColor
  let ov := applySoftEdges ov x y width height bgColor
  { overlay := ov,
    erasedRegions := mapSet es.erasedRegions editId ⟨x, y, width, height⟩ }

/-- The errors of the erasure operations.  `invalidRegion` is the typed
error named by the spec's fail-hard policy; no such error exists
anywhere in the source — the constructor exists to state claim C3.
`indexSize` is the DOM `IndexSizeError` that `getImageData` raises on a
zero-size rectangle. -/
inductive EraseError where
  | invalidRegion
  | indexSize
deriving DecidableEq, Repr

/-- `eraseText` in an error monad: the source body performs no bounds
check and contains no `throw`, so the translation always succeeds. -/
def EraserState.eraseTextE (es : EraserState) (editId : String) (bbox : IRect)
    (bgColor : Color) (padding : ℤ) : Except EraseError EraserState :=
  .ok (es.eraseText editId bbox bgColor padding)

/-- `TextEraser.undoErasure(editId, originalCanvas)` (lines 545-563):
silently return when no region is tracked for the id.  Otherwise it
calls `getImageData(region.x, region.y, region.width, region.height)`,
which per the canvas spec throws a DOM `IndexSizeError` when the
width or height is zero; the source has no try/catch, so the error
escapes and the region stays tracked.  For a nonzero-size region, the
read pads out-of-bounds pixels with transparent black and
`putImageData` stamps the original pixels back onto the overlay
(replacing, not blending; writes clipped to the overlay) and the
region is forgotten.  Stated on the documented domain of nonnegative
region dimensions. -/
def EraserState.undoErasureE (es : EraserState) (editId : String)
    (original : Surface) : Except EraseError EraserState :=
  match es.erasedRegions.lookup editId with
  | none => .ok es
  | some region =>
    if region.width = 0 ∨ region.height = 0 then .error .indexSize
    else
      let ov : Surface :=
        { es.overlay with px := fun i j =>
            if region.x ≤ i ∧ i < region.x + region.width ∧
               region.y ≤ j ∧ j < region.y + region.height ∧
               0 ≤ i ∧ i < es.overlay.width ∧ 0 ≤ j ∧ j < es.overlay.height
            then original.readPx i j
            else es.overlay.px i j }
      .ok { overlay := ov,
            erasedRegions := es.erasedRegions.filter (fun p => p.1 ≠ editId) }

/-! ### Erasure pixel lemmas -/

/-- Source-over blending of any fragment of color `c` over an already
opaque pixel of the same color `c` leaves the pixel opaque `c` — the
reason the soft-edge pass does not disturb the solid fill. -/
theorem blendOver_solid (c : Color) (a : ℚ) :
    blendOver ⟨c.r, c.g, c.b, a⟩ (solidPixel c) = solidPixel c := by
  unfold blendOver solidPixel
  have h1 : a + (255 : ℚ) * (255 - a) / 255 = 255 := by ring
  simp only [h1]
  rw [if_neg (by norm_num)]
  simp only [Pixel.mk.injEq, and_true]
  refine ⟨?_, ?_, ?_⟩ <;> (field_simp; ring)

theorem erase_fill_px (ov : Surface) (x y w h : ℤ) (c : Color) (i j : ℤ)
    (hx1 : x ≤ i) (hx2 : i < x + w) (hy1 : y ≤ j) (hy2 : j < y + h)
    (hb1 : 0 ≤ i) (hb2 : i < ov.width) (hb3 : 0 ≤ j) (hb4 : j < ov.height) :
    (applySoftEdges (ov.fillRect x y w h c) x y w h c).px i j = solidPixel c := by
  have h1 : (ov.fillRect x y w h c).px i j = solidPixel c := by
    unfold Surface.fillRect
    exact if_pos ⟨hx1, hx2, hy1, hy2, hb1, hb2, hb3, hb4⟩
  unfold applySoftEdges Surface.fillRectGradient
  dsimp only
  split_ifs <;>
    first
      | (rw [h1]; simp only [blendOver_solid])
      | rw [h1]

theorem erase_outside_px (ov : Surface) (x y w h : ℤ) (c : Color) (i j : ℤ)
    (hw : 1 ≤ w)
    (hout : i < x ∨ x + w ≤ i ∨ j < y ∨ y + h ≤ j) :
    (applySoftEdges (ov.fillRect x y w h c) x y w h c).px i j = ov.px i j := by
  have hblur : MASK_BLUR_RADIUS = 1 := rfl
  unfold applySoftEdges Surface.fillRectGradient Surface.fillRect
  dsimp only
  split_ifs <;> first | rfl | omega

/-- Counterexample to C3: on a 10×10 overlay, erasing bbox (9,9,1,1)
with padding 2 reads/writes a region reaching x = 12 > 10, yet
`eraseText` returns normally (no `InvalidRegion` error) and records the
overflowing region; `undoErasure` over that tracked out-of-bounds
region also returns normally. -/
theorem eraseText_undoErasure_oob_no_error :
    (((EraserState.initOverlay 10 10).eraseTextE "e1" ⟨9, 9, 1, 1⟩
        ⟨255, 255, 255⟩ 2).isOk = true) ∧
    (((EraserState.initOverlay 10 10).eraseText "e1" ⟨9, 9, 1, 1⟩
        ⟨255, 255, 255⟩ 2).erasedRegions.lookup "e1" = some ⟨7, 7, 5, 5⟩) ∧
    ((10 : ℤ) < 7 + 5) ∧
    ((((EraserState.initOverlay 10 10).eraseText "e1" ⟨9, 9, 1, 1⟩
        ⟨255, 255, 255⟩ 2).undoErasureE "e1"
        ⟨10, 10, fun _ _ => solidPixel ⟨255, 255, 255⟩⟩).isOk = true) := by
  refine ⟨rfl, by decide, by decide, rfl⟩

/-- C3 (amended): TextEraser never raises the spec's typed
`InvalidRegion` error, and out-of-bounds regions as such raise no
error: `eraseText` always succeeds, silently clipping its writes to
the surface and recording the (possibly overflowing) region;
`undoErasure` on an id with no tracked region is a silent no-op, and
on a tracked region of nonzero size it succeeds, padding out-of-bounds
reads with transparent pixels and clipping writes.  The one error path
is the DOM `IndexSizeError` that `getImageData` raises when the
tracked region has width or height zero (reachable via `eraseText`
with padding 0 on a zero-size bbox) — which is not the typed
`InvalidRegion` error. -/
theorem EraserState.eraseText_undoErasure_total (es : EraserState)
    (editId : String) (bbox : IRect) (bgColor : Color) (padding : ℤ)
    (original : Surface) :
    (es.eraseTextE editId bbox bgColor padding).isOk = true ∧
    (es.erasedRegions.lookup editId = none →
      es.undoErasureE editId original = .ok es) ∧
    (∀ region, es.erasedRegions.lookup editId = some region →
      region.width ≠ 0 → region.height ≠ 0 →
      (es.undoErasureE editId original).isOk = true) ∧
    (∀ region, es.erasedRegions.lookup editId = some region →
      region.width = 0 ∨ region.height = 0 →
      es.undoErasureE editId original = .error .indexSize) ∧
    (es.undoErasureE editId original ≠ .error .invalidRegion) := by
  refine ⟨rfl, fun h => ?_, fun region hr hw hh => ?_,
    fun region hr hwh => ?_, ?_⟩
  · unfold EraserState.undoErasureE
    rw [h]
  · unfold EraserState.undoErasureE
    simp only [hr]
    rw [if_neg (by tauto)]
    rfl
  · unfold EraserState.undoErasureE
    simp only [hr]
    rw [if_pos hwh]
  · unfold EraserState.undoErasureE
    cases hl : es.erasedRegions.lookup editId with
    | none => simp
    | some region =>
      by_cases hz : region.width = 0 ∨ region.height = 0
      · simp [hz]
      · simp [hz]

/-- Witness for C3's amended claim: a fresh eraser's `undoErasure` is a
silent no-op, and after erasing a zero-size bbox with padding 0 the
tracked region is zero-size, so `undoErasure` raises `IndexSizeError`
(not `InvalidRegion`). -/
theorem EraserState.eraseText_undoErasure_total_witness :
    ((EraserState.initOverlay 4 4).undoErasureE "z"
      ⟨4, 4, fun _ _ => transparent⟩ = .ok (EraserState.initOverlay 4 4)) ∧
    (((EraserState.initOverlay 4 4).eraseText "e0" ⟨1, 1, 0, 0⟩ ⟨0, 0, 0⟩
        0).undoErasureE "e0" ⟨4, 4, fun _ _ => transparent⟩ =
      .error .indexSize) :=
  ⟨(EraserState.eraseText_undoErasure_total (EraserState.initOverlay 4 4)
      "z" ⟨0, 0, 1, 1⟩ ⟨0, 0, 0⟩ 2 ⟨4, 4, fun _ _ => transparent⟩).2.1 rfl,
   (EraserState.eraseText_undoErasure_total
      ((EraserState.initOverlay 4 4).eraseText "e0" ⟨1, 1, 0, 0⟩ ⟨0, 0, 0⟩ 0)
      "e0" ⟨0, 0, 1, 1⟩ ⟨0, 0, 0⟩ 2
      ⟨4, 4, fun _ _ => transparent⟩).2.2.2.1
      ⟨1, 1, 0, 0⟩ (by decide) (Or.inl rfl)⟩

/-- Counterexample to C5: on a 10×10 overlay, `eraseText` of bbox
(8,8,1,1) with padding 2 records region (6,6,5,5), whose right edge
6+5 = 11 extends past the surface edge 10 — the expanded rectangle is
not clamped to the surface bounds. -/
theorem eraseText_region_not_clamped :
    ((((EraserState.initOverlay 10 10).eraseText "e1" ⟨8, 8, 1, 1⟩
        ⟨0, 0, 0⟩ 2).erasedRegions.lookup "e1") = some ⟨6, 6, 5, 5⟩) ∧
    ((10 : ℤ) < 6 + 5) := by
  refine ⟨by decide, by decide⟩

/-- C5 (amended): `eraseText` clamps only the left/top of the padded box
to 0; the recorded width/height are bbox's plus twice the padding and
the right/bottom are not clamped, so the recorded region may extend past
the surface.  It records exactly that region under the edit id, and the
fill paints exactly that rectangle clipped to the surface opaque with
`bgColor` (the soft-edge pass blends the same color over the already
opaque fill); when the region has positive width, pixels outside it are
untouched. -/
theorem EraserState.eraseText_spec (es : EraserState) (editId : String)
    (bbox : IRect) (c : Color) (padding : ℤ) :
    ((es.eraseText editId bbox c padding).erasedRegions =
      mapSet es.erasedRegions editId
        ⟨max 0 (bbox.x - padding), max 0 (bbox.y - padding),
         bbox.width + padding * 2, bbox.height + padding * 2⟩) ∧
    ((es.eraseText editId bbox c padding).erasedRegions.lookup editId =
      some ⟨max 0 (bbox.x - padding), max 0 (bbox.y - padding),
            bbox.width + padding * 2, bbox.height + padding * 2⟩) ∧
    (∀ i j : ℤ, max 0 (bbox.x - padding) ≤ i →
      i < max 0 (bbox.x - padding) + (bbox.width + padding * 2) →
      max 0 (bbox.y - padding) ≤ j →
      j < max 0 (bbox.y - padding) + (bbox.height + padding * 2) →
      0 ≤ i → i < es.overlay.width → 0 ≤ j → j < es.overlay.height →
      (es.eraseText editId bbox c padding).overlay.px i j = solidPixel c) ∧
    (1 ≤ bbox.width + padding * 2 →
      ∀ i j : ℤ,
        (i < max 0 (bbox.x - padding) ∨
         max 0 (bbox.x - padding) + (bbox.width + padding * 2) ≤ i ∨
         j < max 0 (bbox.y - padding) ∨
         max 0 (bbox.y - padding) + (bbox.height + padding * 2) ≤ j) →
        (es.eraseText editId bbox c padding).overlay.px i j =
          es.overlay.px i j) := by
  refine ⟨rfl, lookup_mapSet_self .., ?_, ?_⟩
  · intro i j hx1 hx2 hy1 hy2 hb1 hb2 hb3 hb4
    exact erase_fill_px es.overlay _ _ _ _ c i j hx1 hx2 hy1 hy2 hb1 hb2 hb3 hb4
  · intro hw i j hout
    exact erase_outside_px es.overlay _ _ _ _ c i j hw hout

/-- Witness for C5's amended claim: erasing bbox (2,2,3,3) with padding
2 on a 10×10 overlay records region (0,0,7,7); pixel (3,3) inside it
ends opaque white and pixel (9,9) outside it keeps its transparent
initial value. -/
theorem EraserState.eraseText_spec_witness :
    (((EraserState.initOverlay 10 10).eraseText "e" ⟨2, 2, 3, 3⟩
        ⟨255, 255, 255⟩ 2).overlay.px 3 3 = solidPixel ⟨255, 255, 255⟩) ∧
    (((EraserState.initOverlay 10 10).eraseText "e" ⟨2, 2, 3, 3⟩
        ⟨255, 255, 255⟩ 2).overlay.px 9 9 =
      (EraserState.initOverlay 10 10).overlay.px 9 9) :=
  ⟨((EraserState.initOverlay 10 10).eraseText_spec "e" ⟨2, 2, 3, 3⟩
      ⟨255, 255, 255⟩ 2).2.2.1 3 3 (by decide) (by decide) (by decide)
      (by decide) (by decide) (by decide) (by decide) (by decide),
   ((EraserState.initOverlay 10 10).eraseText_spec "e" ⟨2, 2, 3, 3⟩
      ⟨255, 255, 255⟩ 2).2.2.2 (by decide) 9 9 (by decide)⟩

/-! ## BackgroundDetector (BackgroundDetector.ts:1-327) -/

/-- Background type tags. -/
inductive BackgroundType where
  | solid
  | gradient
  | pattern
  | image
deriving DecidableEq, Repr

/-- BackgroundResult. -/
structure Background where
  color : String
  type : BackgroundType
  confidence : ℚ
deriving DecidableEq, Repr

/-- `DEFAULTS.BACKGROUND` (constants, part_011:228-232). -/
def DEFAULT_BACKGROUND : Background :=
  { color := "#ffffff", type := .solid, confidence := 1 }

/-- A color cluster with running-average channels and a sample count. -/
structure ColorCluster where
  r : ℚ
  g : ℚ
  b : ℚ
  count : ℕ
deriving DecidableEq, Repr

/-- The four 5px border-strip sample regions around the padded bbox
(BackgroundDetector.ts:88-117): top, bottom, left, right. -/
def sampleRegions (canvasWidth canvasHeight : ℤ) (bbox : IRect)
    (padding : ℤ) : List IRect :=
  [{ x := max 0 (bbox.x - padding), y := max 0 (bbox.y - padding - 5),
     width := bbox.width + padding * 2, height := 5 },
   { x := max 0 (bbox.x - padding),
     y := min (canvasHeight - 5) (bbox.y + bbox.height + padding),
     width := bbox.width + padding * 2, height := 5 },
   { x := max 0 (bbox.x - padding - 5), y := bbox.y, width := 5,
     height := bbox.height },
   { x := min (canvasWidth - 5) (bbox.x + bbox.width + padding),
     y := bbox.y, width := 5, height := bbox.height }]

/-- Sampling one region (BackgroundDetector.ts:119-151): regions that
are degenerate or extend outside the canvas are skipped; otherwise the
region is read row-major at stride `max 1 (pixelCount / 50)` (~50
samples), skipping pixels with alpha < 128. -/
def sampleRegion (s : Surface) (region : IRect) : List Color :=
  if region.width ≤ 0 ∨ region.height ≤ 0 then []
  else if region.x < 0 ∨ region.y < 0 then []
  else if s.width < region.x + region.width ∨
      s.height < region.y + region.height then []
  else
    let pixelCount := (region.width * region.height).toNat
    let sampleRate := max 1 (pixelCount / 50)
    (List.range ((pixelCount + sampleRate - 1) / sampleRate)).filterMap
      (fun k =>
        let p := k * sampleRate
        let px := s.px (region.x + (p : ℤ) % region.width)
          (region.y + (p : ℤ) / region.width)
        if px.a < 128 then none else some ⟨px.r, px.g, px.b⟩)

/-- `sampleAroundBox(ctx, canvasWidth, canvasHeight, bbox, padding)`
(BackgroundDetector.ts:79-153). -/
def sampleAroundBox (s : Surface) (bbox : IRect) (padding : ℤ) : List Color :=
  (sampleRegions s.width s.height bbox padding).flatMap (sampleRegion s)

/-- `colorDistance(c1, c2)` (helpers, lazyLoader.ts:212-219) is the
Euclidean RGB distance `Math.sqrt(Δr² + Δg² + Δb²)`; its only use here
compares it against the clustering tolerance 30
(BackgroundDetector.ts:163-171), so the comparison is embedded squared
— `√d < 30 ⟺ d < 900` for `d ≥ 0` — keeping the definition inside ℚ. -/
def colorCloseTo (sample : Color) (cluster : ColorCluster) : Bool :=
  decide ((sample.r - cluster.r) ^ 2 + (sample.g - cluster.g) ^ 2 +
    (sample.b - cluster.b) ^ 2 < 30 ^ 2)

/-- The inner loop of `clusterColors` (BackgroundDetector.ts:164-180):
add the sample to the first cluster within tolerance, updating its
running average and count; `none` when no cluster matches. -/
def addToFirstCluster : List ColorCluster → Color → Option (List ColorCluster)
  | [], _ => none
  | cl :: rest, sample =>
    if colorCloseTo sample cl then
      some ({ r := (cl.r * cl.count + sample.r) / (cl.count + 1),
              g := (cl.g * cl.count + sample.g) / (cl.count + 1),
              b := (cl.b * cl.count + sample.b) / (cl.count + 1),
              count := cl.count + 1 } :: rest)
    else
      match addToFirstCluster rest sample with
      | some rest' => some (cl :: rest')
      | none => none

/-- One sample of `clusterColors` (BackgroundDetector.ts:163-189): join
the first close cluster, else seed a new one at the end. -/
def addSample (clusters : List ColorCluster) (sample : Color) :
    List ColorCluster :=
  match addToFirstCluster clusters sample with
  | some clusters' => clusters'
  | none =>
    clusters ++ [{ r := sample.r, g := sample.g, b := sample.b, count := 1 }]

/-- `clusterColors(samples)` (BackgroundDetector.ts:157-192): greedy
clustering, then the stable sort on descending count
(`(a, b) => b.count - a.count`). -/
def clusterColors (samples : List Color) : List ColorCluster :=
  (samples.foldl addSample []).mergeSort (fun a b => b.count ≤ a.count)

/-- `clusters.reduce((a, b) => (a.count > b.count ? a : b))`
(BackgroundDetector.ts:46).  JS `reduce` without a seed starts from the
first element (and throws on an empty array; `detectBackground` only
reaches it with nonempty samples, hence nonempty clusters). -/
def pickDominant : List ColorCluster → ColorCluster
  | [] => { r := 0, g := 0, b := 0, count := 0 }
  | c :: rest => rest.foldl (fun a b => if b.count < a.count then a else b) c

/-- The adjacent-pair loop of `checkGradient`
(BackgroundDetector.ts:237-250): fail as soon as a pair has hue delta
> 0.3 or brightness delta < 20. -/
def gradientPairsOk : List ColorCluster → Bool
  | c1 :: c2 :: rest =>
    if (3 / 10 : ℚ) < |(c1.r - c1.b) / 255 - (c2.r - c2.b) / 255| ∨
        |(c1.r + c1.g + c1.b) / 3 - (c2.r + c2.g + c2.b) / 3| < 20 then
      false
    else gradientPairsOk (c2 :: rest)
  | _ => true

/-- `checkGradient(clusters)` (BackgroundDetector.ts:230-252). -/
def checkGradient (clusters : List ColorCluster) : Bool :=
  if clusters.length < 2 then false else gradientPairsOk clusters

/-- `determineBackgroundType(clusters)` (BackgroundDetector.ts:195-225);
`clusters` arrives sorted on descending count. -/
def determineBackgroundType (clusters : List ColorCluster) : BackgroundType :=
  match clusters with
  | [] => .solid
  | [_] => .solid
  | c0 :: c1 :: rest =>
    let cs := c0 :: c1 :: rest
    let totalCount : ℕ := (cs.map (fun c => c.count)).foldl (· + ·) 0
    let dominantRatio : ℚ := (c0.count : ℚ) / (totalCount : ℚ)
    if (7 / 10 : ℚ) < dominantRatio then .solid
    else if cs.length ≤ 3 ∧ (2 / 5 : ℚ) < dominantRatio then
      if checkGradient (cs.take 3) then .gradient
      else if 5 < cs.length then .image
      else .pattern
    else if 5 < cs.length then .image
    else .pattern

/-- JS `Math.round` (half rounds toward +∞). -/
def jsRound (q : ℚ) : ℤ := ⌊q + 1 / 2⌋

/-- `x.toString(16).padStart(2, '0')` for a natural number
(lazyLoader.ts:165): lowercase hex digits, left-padded with zeros to at
least two characters. -/
def toHexPadded (x : ℕ) : List Char :=
  let ds := Nat.toDigits 16 x
  List.replicate (2 - ds.length) '0' ++ ds

/-- `rgbToHex(r, g, b)` (helpers, lazyLoader.ts:164-166):
`'#' + [r, g, b].map((x) => x.toString(16).padStart(2, '0')).join('')`,
for the nonnegative integers it receives from `Math.round`. -/
def rgbToHex (r g b : ℕ) : String :=
  ⟨'#' :: (toHexPadded r ++ toHexPadded g ++ toHexPadded b)⟩

/-- `BackgroundDetector.detectBackground(canvas, bbox, padding = 5)`
(BackgroundDetector.ts:26-74).  In the embedding the canvas context
always exists and in-bounds reads cannot fail, so the try/catch
fallback (which also returns the default) collapses into the explicit
empty-samples default. -/
def detectBackground (s : Surface) (bbox : IRect) (padding : ℤ) : Background :=
  let samples := sampleAroundBox s bbox padding
  if samples.length = 0 then DEFAULT_BACKGROUND
  else
    let clusters := clusterColors samples
    let dominantCluster := pickDominant clusters
    let type := determineBackgroundType clusters
    let confidence : ℚ := (dominantCluster.count : ℚ) / (samples.length : ℚ)
    { color := rgbToHex (jsRound dominantCluster.r).toNat
        (jsRound dominantCluster.g).toNat (jsRound dominantCluster.b).toNat,
      type := type, confidence := confidence }

/-- C8: `detectBackground` is a total function of the surface and bbox
(never throws); whenever no valid samples exist — all four border
strips skipped or degenerate, or every sampled pixel transparent
(alpha < 128) — it returns the fixed default
`{color: '#ffffff', type: solid, confidence: 1}`. -/
theorem detectBackground_default (s : Surface) (bbox : IRect) (padding : ℤ) :
    (sampleAroundBox s bbox padding = [] →
      detectBackground s bbox padding = DEFAULT_BACKGROUND) ∧
    ((∀ i j : ℤ, (s.px i j).a < 128) →
      detectBackground s bbox padding = DEFAULT_BACKGROUND) := by
  have hkey : (∀ i j : ℤ, (s.px i j).a < 128) →
      ∀ region, sampleRegion s region = [] := by
    intro h region
    unfold sampleRegion
    split_ifs with h1 h2 h3
    · rfl
    · rfl
    · rfl
    · rw [List.filterMap_eq_nil_iff]
      intro k _
      dsimp only
      rw [if_pos (h _ _)]
  have hdef : sampleAroundBox s bbox padding = [] →
      detectBackground s bbox padding = DEFAULT_BACKGROUND := by
    intro h
    simp [detectBackground, h]
  refine ⟨hdef, fun h => hdef ?_⟩
  unfold sampleAroundBox
  rw [List.flatMap_eq_nil_iff]
  intro r _
  exact hkey h r

/-- Witness for C8: a fully transparent 200×100 surface yields no valid
samples, and `detectBackground` returns the default. -/
theorem detectBackground_default_witness :
    detectBackground ⟨200, 100, fun _ _ => transparent⟩ ⟨50, 30, 60, 12⟩ 5 =
      DEFAULT_BACKGROUND :=
  (detectBackground_default ⟨200, 100, fun _ _ => transparent⟩
      ⟨50, 30, 60, 12⟩ 5).2 (fun i j => by norm_num [transparent])

end PdfEdit
